import Mathlib

/-!
Verification of the animation-scheduling subsystem of the Magnum scene-graph
library (`src/SceneGraph/Animable.h`): the per-object animation state machine
(`Animable`) and the group that steps many such machines once per frame
(`AnimableGroup`).

Times are modelled as rationals (the C++ code uses `Float`; all the claims
under study are exact algebraic identities on the time bookkeeping, so `ℚ`
is the faithful idealisation).  Hook firings (`animationStarted`,
`animationPaused`, `animationResumed`, `animationStopped`) and calls of the
abstract per-step callback `animationStep` are recorded in an explicit event
trace, so that "fires exactly once" and "before the first step" become
statements about lists.
-/

namespace Magnum
namespace SceneGraph

/-- Animation state, from `enum class AnimationState` in `Animable.h`:
`Stopped`, `Paused`, `Running`. -/
inductive AnimationState where
  | Stopped
  | Paused
  | Running
deriving DecidableEq

/-- State of one `Animable`, mirroring the private fields of the
`Animable` class in `Animable.h`: `_duration`, `startTime`, `pauseTime`,
`previousState`, `currentState`, `_repeated`, `_repeatCount`, `repeats`.
The two `UnsignedShort` counters are carried as `Nat`; `setRepeatCount`
reduces modulo `2^16` where the machine type truncates. -/
structure Animable where
  _duration : ℚ
  startTime : ℚ
  pauseTime : ℚ
  previousState : AnimationState
  currentState : AnimationState
  _repeated : Bool
  _repeatCount : Nat
  repeats : Nat
deriving DecidableEq

/-- Observable events of one frame: the four lifecycle hooks and the
abstract `animationStep(time, delta)` callback. -/
inductive Event where
  | started
  | paused
  | resumed
  | stopped
  | step (time delta : ℚ)
deriving DecidableEq

/-- Accessor `duration()` from `Animable.h`. -/
def Animable.duration (a : Animable) : ℚ := a._duration

/-- Accessor `state()` from `Animable.h`. -/
def Animable.state (a : Animable) : AnimationState := a.currentState

/-- Accessor `isRepeated()` from `Animable.h`. -/
def Animable.isRepeated (a : Animable) : Bool := a._repeated

/-- Accessor `repeatCount()` from `Animable.h`; the stored value is an
`UnsignedShort`. -/
def Animable.repeatCount (a : Animable) : Nat := a._repeatCount

/-- Setter `setRepeated(bool)` from `Animable.h`. -/
def Animable.setRepeated (a : Animable) (repeated : Bool) : Animable :=
  { a with _repeated := repeated }

/-- Setter `setRepeatCount(UnsignedShort)` from `Animable.h`; the parameter
is a 16-bit unsigned machine value, so a caller-supplied count is truncated
modulo `2^16 = 65536` at the interface. -/
def Animable.setRepeatCount (a : Animable) (count : Nat) : Animable :=
  { a with _repeatCount := count % 65536 }

/-- Protected setter `setDuration(Float)` from `Animable.h`. -/
def Animable.setDuration (a : Animable) (duration : ℚ) : Animable :=
  { a with _duration := duration }

/-- Modelled from the spec: the body of `Animable::setState` is only
declared in `Animable.h` (its implementation file `Animable.hpp` is not
among the provided sources).  Effects follow the transition table of spec
section 4.1: Stopped→Running anchors `startTime := now`, clears the repeat
counter and fires `onStarted`; Stopped→Paused is ignored; Running→Paused
records `pauseTime := now` and fires `onPaused`; Running→Stopped and
Paused→Stopped fire `onStopped`; Paused→Running shifts
`startTime := startTime + (now - pauseTime)` and fires `onResumed`;
a same-state call is a no-op firing nothing.  `previousState` records the
state being left on every effective transition.  The caller-supplied clock
value `now` is passed in explicitly since the core never reads a clock
itself (spec section 5). -/
def Animable.setState (a : Animable) (now : ℚ) (s : AnimationState) :
    Animable × List Event :=
  if a.currentState = s then (a, [])
  else match a.currentState, s with
  | .Stopped, .Running =>
      ({ a with previousState := .Stopped, currentState := .Running,
                startTime := now, repeats := 0 }, [.started])
  | .Stopped, .Paused => (a, [])
  | .Running, .Paused =>
      ({ a with previousState := .Running, currentState := .Paused,
                pauseTime := now }, [.paused])
  | .Running, .Stopped =>
      ({ a with previousState := .Running, currentState := .Stopped }, [.stopped])
  | .Paused, .Running =>
      ({ a with previousState := .Paused, currentState := .Running,
                startTime := a.startTime + (now - a.pauseTime) }, [.resumed])
  | .Paused, .Stopped =>
      ({ a with previousState := .Paused, currentState := .Stopped }, [.stopped])
  | _, _ => (a, [])

/-- Modelled from the spec: the per-member step protocol run by
`AnimableGroup::step` (implemented in `Animable.hpp`, not among the
provided sources), following spec section 4.1 items 1–5: a non-Running
member is skipped entirely; otherwise `elapsed := time - startTime` and the
abstract `animationStep(elapsed, delta)` is invoked; then if
`duration > 0 ∧ elapsed ≥ duration`, either the cycle restarts
phase-preservingly (`repeats` incremented, `startTime += duration`, no
hooks) when `repeated ∧ (repeatCount = 0 ∨ repeats + 1 < repeatCount)`,
or `setState(Stopped)` runs, firing `onStopped` after the last step. -/
def Animable.stepProtocol (a : Animable) (time delta : ℚ) :
    Animable × List Event :=
  if a.currentState = .Running then
    let elapsed := time - a.startTime
    if 0 < a._duration ∧ a._duration ≤ elapsed then
      if a._repeated = true ∧ (a._repeatCount = 0 ∨ a.repeats + 1 < a._repeatCount) then
        ({ a with repeats := a.repeats + 1,
                  startTime := a.startTime + a._duration },
         [.step elapsed delta])
      else
        ((a.setState time .Stopped).1,
         .step elapsed delta :: (a.setState time .Stopped).2)
    else (a, [.step elapsed delta])
  else (a, [])

/-- Iterated step calls: folds `stepProtocol` over a list of
`(absoluteTime, frameDelta)` pairs, keeping only the animatable state. -/
def Animable.stepMany (a : Animable) (calls : List (ℚ × ℚ)) : Animable :=
  calls.foldl (fun s c => (s.stepProtocol c.1 c.2).1) a

/-- Modelled from the spec: the per-frame traversal of
`AnimableGroup::step` over the membership (implementation not among the
provided sources); spec section 4.2 — every Running member runs the
per-step protocol, non-Running members are skipped.  Returns the updated
members. -/
def groupStepAnims (ms : List Animable) (time delta : ℚ) : List Animable :=
  ms.map (fun a => (a.stepProtocol time delta).1)

/-- Modelled from the spec: the events emitted during one
`AnimableGroup::step` traversal, concatenated in member order. -/
def groupStepEvents (ms : List Animable) (time delta : ℚ) : List Event :=
  (ms.map (fun a => (a.stepProtocol time delta).2)).flatten

/-- One group member for the mutation-during-iteration model: an identity,
the animation state machine, and the membership removals its
`animationStep` callback performs when invoked. -/
structure GMember where
  idx : Nat
  anim : Animable
  removeRequests : List Nat
deriving DecidableEq

/-- Modelled from the spec: which members have `animationStep` invoked in
one `AnimableGroup::step` call (spec sections 4.2 and 9: iteration runs
over the stable snapshot of the membership taken at step entry, so
structural mutations requested by callbacks do not alter the traversal).
Returns the member identities in invocation order. -/
def groupSteppedIds (ms : List GMember) : List Nat :=
  ms.foldl (fun acc m =>
    if m.anim.currentState = .Running then acc ++ [m.idx] else acc) []

/-- Modelled from the spec: membership after one `AnimableGroup::step`
call — removals requested by the Running members' callbacks are buffered
during the traversal and applied only after it completes (spec sections
4.2 and 9). -/
def groupApplyRemovals (ms : List GMember) : List GMember :=
  let pending := ms.foldl (fun acc m =>
    if m.anim.currentState = .Running then acc ++ m.removeRequests else acc) []
  ms.filter (fun m => !(pending.contains m.idx))

/-- Membership state of one `AnimableGroup` together with the
back-references of the animatables (identified by `Nat` handles):
`backRef x = true` iff animatable `x`'s group pointer (`animables()`)
currently points at this group. -/
structure GroupWorld where
  members : List Nat
  backRef : Nat → Bool

/-- Modelled from the spec: `AnimableGroup::add` (implemented in
`AbstractGroupedFeature.h`, not among the provided sources); spec section
4.2 — inserts the animatable into the membership and sets its
back-reference; adding an existing member is an idempotent no-op. -/
def GroupWorld.add (w : GroupWorld) (a : Nat) : GroupWorld :=
  if a ∈ w.members then w
  else { members := a :: w.members,
         backRef := fun x => if x = a then true else w.backRef x }

/-- Modelled from the spec: `AnimableGroup::remove` (implemented in
`AbstractGroupedFeature.h`, not among the provided sources); spec section
4.2 — removes the animatable from the membership and clears its
back-reference; removing a non-member is an idempotent no-op. -/
def GroupWorld.remove (w : GroupWorld) (a : Nat) : GroupWorld :=
  if a ∈ w.members then
    { members := w.members.erase a,
      backRef := fun x => if x = a then false else w.backRef x }
  else w

/-- Concrete stopped animatable used to instantiate theorems with
hypotheses. -/
def sampleStopped : Animable :=
  { _duration := 1, startTime := 0, pauseTime := 0,
    previousState := .Stopped, currentState := .Stopped,
    _repeated := false, _repeatCount := 0, repeats := 0 }

/-- Helper: the per-step protocol never fires `onStarted`; its trace holds
only `step` events and possibly a final `stopped`. -/
theorem stepProtocol_no_started (b : Animable) (t d : ℚ) :
    (b.stepProtocol t d).2.count Event.started = 0 := by
  unfold Animable.stepProtocol
  split_ifs with h1 h2 <;> simp [Animable.setState, *] <;>
    split_ifs <;> simp

/-- C1: for every Animatable in state Stopped, `setState(Running)` sets
`startTime` to the current time, resets the repeat counter to 0, records
`previousState = Stopped`, and fires `onStarted` exactly once — the
`setState` trace is exactly `[started]`, and no later `animationStep` of
the new run ever emits `started`, so the hook precedes the first
`animationStep` call of the run. -/
theorem setState_stopped_to_running (a : Animable) (now t d : ℚ)
    (h : a.currentState = .Stopped) :
    (a.setState now .Running).1.startTime = now ∧
    (a.setState now .Running).1.repeats = 0 ∧
    (a.setState now .Running).1.currentState = .Running ∧
    (a.setState now .Running).1.previousState = .Stopped ∧
    (a.setState now .Running).2 = [.started] ∧
    (((a.setState now .Running).1.stepProtocol t d).2.count .started = 0) := by
  refine ⟨?_, ?_, ?_, ?_, ?_, ?_⟩
  · simp [Animable.setState, h]
  · simp [Animable.setState, h]
  · simp [Animable.setState, h]
  · simp [Animable.setState, h]
  · simp [Animable.setState, h]
  · exact stepProtocol_no_started _ t d

/-- C1 witness at a concrete input. -/
theorem setState_stopped_to_running_witness :
    sampleStopped.currentState = AnimationState.Stopped ∧
    (sampleStopped.setState 5 .Running).1.startTime = 5 ∧
    (sampleStopped.setState 5 .Running).2 = [Event.started] :=
  ⟨by decide,
   (setState_stopped_to_running sampleStopped 5 6 1 (by decide)).1,
   (setState_stopped_to_running sampleStopped 5 6 1 (by decide)).2.2.2.2.1⟩

/-- Concrete running animatable used to instantiate theorems with
hypotheses. -/
def sampleRunning : Animable :=
  { _duration := 10, startTime := 0, pauseTime := 0,
    previousState := .Stopped, currentState := .Running,
    _repeated := false, _repeatCount := 0, repeats := 0 }

/-- Concrete running repeated animatable (infinite repeat count) used to
instantiate theorems with hypotheses. -/
def sampleRepeat : Animable :=
  { _duration := 1, startTime := 0, pauseTime := 0,
    previousState := .Stopped, currentState := .Running,
    _repeated := true, _repeatCount := 0, repeats := 0 }

/-- Helper: a step of a Running animatable always begins its trace with the
`animationStep` call carrying `elapsed = time - startTime`. -/
theorem stepProtocol_head (b : Animable) (t d : ℚ)
    (h : b.currentState = .Running) :
    (b.stepProtocol t d).2.head? = some (.step (t - b.startTime) d) := by
  unfold Animable.stepProtocol
  rw [if_pos h]
  split_ifs <;> simp [Animable.setState, *] <;> split_ifs <;> simp

/-- C2: resume from pause preserves elapsed time — pausing a Running
animatable at time `tp` (elapsed `E = tp - startTime`) and resuming at
time `tr` shifts `startTime` by `tr - tp` (that is,
`startTime + (now - pauseTime)`), so a step at the same absolute time `tr`
passes exactly `E` to `animationStep`; a run started from Stopped and
stepped at its start time instead passes elapsed `0`. -/
theorem resume_preserves_elapsed (a b : Animable) (tp tr d : ℚ)
    (ha : a.currentState = .Running) (hb : b.currentState = .Stopped) :
    ((a.setState tp .Paused).1.setState tr .Running).1.startTime
      = a.startTime + (tr - tp) ∧
    ((((a.setState tp .Paused).1.setState tr .Running).1.stepProtocol tr d).2.head?
      = some (.step (tp - a.startTime) d)) ∧
    (((b.setState tr .Running).1.stepProtocol tr d).2.head? = some (.step 0 d)) := by
  have hp : ((a.setState tp .Paused).1.setState tr .Running).1.startTime
      = a.startTime + (tr - tp) ∧
      ((a.setState tp .Paused).1.setState tr .Running).1.currentState
      = .Running := by
    simp [Animable.setState, ha]
  refine ⟨hp.1, ?_, ?_⟩
  · rw [stepProtocol_head _ _ _ hp.2, hp.1]
    have he : tr - (a.startTime + (tr - tp)) = tp - a.startTime := by ring
    rw [he]
  · have hq : (b.setState tr .Running).1.startTime = tr ∧
        (b.setState tr .Running).1.currentState = .Running := by
      simp [Animable.setState, hb]
    rw [stepProtocol_head _ _ _ hq.2, hq.1, sub_self]

/-- C2 witness at concrete inputs: pause at time 2 (elapsed 2), resume at
time 5, step at time 5 receives elapsed 2. -/
theorem resume_preserves_elapsed_witness :
    sampleRunning.currentState = AnimationState.Running ∧
    sampleStopped.currentState = AnimationState.Stopped ∧
    ((((sampleRunning.setState 2 .Paused).1.setState 5 .Running).1.stepProtocol 5 1).2.head?
      = some (.step (2 - sampleRunning.startTime) 1)) ∧
    (((sampleStopped.setState 5 .Running).1.stepProtocol 5 1).2.head?
      = some (.step 0 1)) :=
  ⟨by decide, by decide,
   (resume_preserves_elapsed sampleRunning sampleStopped 2 5 1 (by decide) (by decide)).2.1,
   (resume_preserves_elapsed sampleRunning sampleStopped 2 5 1 (by decide) (by decide)).2.2⟩

/-- C3: when a Running animatable with positive duration reaches or exceeds
its duration and repeats remain (`repeated` and `repeatCount = 0` or
`repeats + 1 < repeatCount`), the step increments the repeat counter and
restarts the cycle phase-preservingly — `startTime := startTime + duration`,
not `:= now` — the state stays Running and the trace holds only the
`animationStep` call, no lifecycle hooks. -/
theorem repeat_restart_phase_preserving (a : Animable) (t d : ℚ)
    (h1 : a.currentState = .Running)
    (h2 : 0 < a._duration)
    (h3 : a._duration ≤ t - a.startTime)
    (h4 : a._repeated = true)
    (h5 : a._repeatCount = 0 ∨ a.repeats + 1 < a._repeatCount) :
    (a.stepProtocol t d).1.repeats = a.repeats + 1 ∧
    (a.stepProtocol t d).1.startTime = a.startTime + a._duration ∧
    (a.stepProtocol t d).1.currentState = .Running ∧
    (a.stepProtocol t d).2 = [.step (t - a.startTime) d] := by
  have hg1 : 0 < a._duration ∧ a._duration ≤ t - a.startTime := ⟨h2, h3⟩
  have hg2 : a._repeated = true ∧
      (a._repeatCount = 0 ∨ a.repeats + 1 < a._repeatCount) := ⟨h4, h5⟩
  simp [Animable.stepProtocol, h1, hg1, hg2]

/-- C3 witness at a concrete input: duration 1, infinite repeats, stepped
at time 2. -/
theorem repeat_restart_phase_preserving_witness :
    sampleRepeat.currentState = AnimationState.Running ∧
    (0 : ℚ) < sampleRepeat._duration ∧
    sampleRepeat._duration ≤ (2 : ℚ) - sampleRepeat.startTime ∧
    sampleRepeat._repeated = true ∧
    sampleRepeat._repeatCount = 0 ∧
    (sampleRepeat.stepProtocol 2 1).1.repeats = sampleRepeat.repeats + 1 ∧
    (sampleRepeat.stepProtocol 2 1).1.startTime
      = sampleRepeat.startTime + sampleRepeat._duration ∧
    (sampleRepeat.stepProtocol 2 1).1.currentState = AnimationState.Running :=
  ⟨by decide, by decide, by simp [sampleRepeat], by decide, by decide,
   (repeat_restart_phase_preserving sampleRepeat 2 1 (by decide) (by decide)
      (by simp [sampleRepeat]) (by decide) (Or.inl (by decide))).1,
   (repeat_restart_phase_preserving sampleRepeat 2 1 (by decide) (by decide)
      (by simp [sampleRepeat]) (by decide) (Or.inl (by decide))).2.1,
   (repeat_restart_phase_preserving sampleRepeat 2 1 (by decide) (by decide)
      (by simp [sampleRepeat]) (by decide) (Or.inl (by decide))).2.2.1⟩

/-- C5: for every Animatable in state Stopped, `setState(Paused)` is a
silent no-op — the state stays Stopped, nothing changes and no lifecycle
hook fires. -/
theorem setState_stopped_to_paused_noop (a : Animable) (now : ℚ)
    (h : a.currentState = .Stopped) :
    a.setState now .Paused = (a, []) := by
  simp [Animable.setState, h]

/-- C5 witness at a concrete input. -/
theorem setState_stopped_to_paused_noop_witness :
    sampleStopped.currentState = AnimationState.Stopped ∧
    sampleStopped.setState 3 .Paused = (sampleStopped, []) :=
  ⟨by decide, setState_stopped_to_paused_noop sampleStopped 3 (by decide)⟩

/-- C10: the repeat count is a 16-bit unsigned (`UnsignedShort`): for every
count up to 65535 the `setRepeatCount`/`repeatCount` round-trip is exact,
and no stored repeat count ever reaches 65536. -/
theorem repeatCount_roundtrip_unsignedShort (a : Animable) (n : Nat) :
    (n ≤ 65535 → (a.setRepeatCount n).repeatCount = n) ∧
    (a.setRepeatCount n).repeatCount < 65536 := by
  constructor
  · intro h
    simp only [Animable.setRepeatCount, Animable.repeatCount]
    omega
  · simp only [Animable.setRepeatCount, Animable.repeatCount]
    omega

/-- C10 witness: exact round-trip at 42, truncation bound at 70000. -/
theorem repeatCount_roundtrip_unsignedShort_witness :
    (sampleStopped.setRepeatCount 42).repeatCount = 42 ∧
    (sampleStopped.setRepeatCount 70000).repeatCount < 65536 :=
  ⟨(repeatCount_roundtrip_unsignedShort sampleStopped 42).1 (by decide),
   (repeatCount_roundtrip_unsignedShort sampleStopped 70000).2⟩

/-- Concrete animatable for the repeat-count-exhaustion scenario of spec
section 8: duration 1, repeated, repeat count 2, initially Stopped. -/
def exhaustStart : Animable :=
  { _duration := 1, startTime := 0, pauseTime := 0,
    previousState := .Stopped, currentState := .Stopped,
    _repeated := true, _repeatCount := 2, repeats := 0 }

/-- State of the exhaustion scenario right after `setState(Running)` at
time 0. -/
def exhaustA : Animable :=
  { _duration := 1, startTime := 0, pauseTime := 0,
    previousState := .Stopped, currentState := .Running,
    _repeated := true, _repeatCount := 2, repeats := 0 }

/-- State of the exhaustion scenario after the phase-preserving restart of
the second step: `startTime` advanced by one duration, one repeat done. -/
def exhaustB : Animable :=
  { _duration := 1, startTime := 1, pauseTime := 0,
    previousState := .Stopped, currentState := .Running,
    _repeated := true, _repeatCount := 2, repeats := 1 }

/-- Final state of the exhaustion scenario: stopped on the third step. -/
def exhaustC : Animable :=
  { _duration := 1, startTime := 1, pauseTime := 0,
    previousState := .Running, currentState := .Stopped,
    _repeated := true, _repeatCount := 2, repeats := 1 }

/-- State of the exhaustion scenario at start: `setState(Running)` at
absolute time 0. -/
def exhaustS0 : Animable := (exhaustStart.setState 0 .Running).1

/-- First step of the exhaustion scenario, at absolute time 1/2. -/
def exhaustR1 : Animable × List Event := exhaustS0.stepProtocol (1/2) (1/2)

/-- Second step of the exhaustion scenario, at absolute time 3/2. -/
def exhaustR2 : Animable × List Event := exhaustR1.1.stepProtocol (3/2) 1

/-- Third step of the exhaustion scenario, at absolute time 5/2. -/
def exhaustR3 : Animable × List Event := exhaustR2.1.stepProtocol (5/2) 1

/-- C4: an animatable with duration 1, repeated, repeat count 2, started at
absolute time 0 and stepped at absolute times 1/2, 3/2 and 5/2, stays
Running through the first two steps (completing one cycle at the second),
transitions to Stopped exactly once — on the third step — and `onStopped`
appears exactly once in that step's trace and nowhere earlier. -/
theorem repeat_count_exhaustion :
    exhaustR1.1.currentState = .Running ∧ exhaustR1.2.count .stopped = 0 ∧
    exhaustR2.1.currentState = .Running ∧ exhaustR2.2.count .stopped = 0 ∧
    exhaustR2.1.repeats = 1 ∧
    exhaustR3.1.currentState = .Stopped ∧ exhaustR3.2.count .stopped = 1 := by
  have h0 : exhaustS0 = exhaustA := by decide
  have h1 : exhaustR1 = (exhaustA, [.step (1/2) (1/2)]) := by
    unfold exhaustR1
    rw [h0]
    norm_num [exhaustA, Animable.stepProtocol]
  have h2 : exhaustR2 = (exhaustB, [.step (3/2) 1]) := by
    unfold exhaustR2
    rw [h1]
    norm_num [exhaustA, exhaustB, Animable.stepProtocol]
  have h3 : exhaustR3 = (exhaustC, [.step (3/2) 1, .stopped]) := by
    unfold exhaustR3
    rw [h2]
    norm_num [exhaustB, exhaustC, Animable.stepProtocol, Animable.setState]
    decide
  rw [h1, h2, h3]
  decide

/-- Concrete running animatable with infinite (zero) duration. -/
def sampleInfinite : Animable :=
  { _duration := 0, startTime := 0, pauseTime := 0,
    previousState := .Stopped, currentState := .Running,
    _repeated := false, _repeatCount := 0, repeats := 0 }

/-- C6: an animatable with duration 0 is never auto-transitioned out of
Running by step calls — any sequence of steps leaves it entirely
unchanged, still Running; only an external `setState` can end it. -/
theorem infinite_duration_never_autostops (a : Animable)
    (calls : List (ℚ × ℚ))
    (h0 : a._duration = 0) (h1 : a.currentState = .Running) :
    a.stepMany calls = a ∧ (a.stepMany calls).currentState = .Running := by
  have key : a.stepMany calls = a := by
    induction calls with
    | nil => rfl
    | cons c cs ih =>
      have hstep : (a.stepProtocol c.1 c.2).1 = a := by
        simp [Animable.stepProtocol, h1, h0]
      unfold Animable.stepMany at ih ⊢
      rw [List.foldl_cons, hstep]
      exact ih
  exact ⟨key, by rw [key]; exact h1⟩

/-- C6 witness at a concrete input. -/
theorem infinite_duration_never_autostops_witness :
    sampleInfinite._duration = 0 ∧
    sampleInfinite.currentState = AnimationState.Running ∧
    (sampleInfinite.stepMany [(1, 1), (2, 1), (100, 1)]).currentState
      = AnimationState.Running :=
  ⟨by decide, by decide,
   (infinite_duration_never_autostops sampleInfinite [(1, 1), (2, 1), (100, 1)]
      (by decide) (by decide)).2⟩

/-- C7: `AnimableGroup::step` invokes `animationStep` only for members in
state Running — a non-Running member is skipped entirely (unchanged, no
events) — and a group whose members are all Stopped or Paused emits no
events at all during a step. -/
theorem group_step_skips_non_running (ms : List Animable) (t d : ℚ) :
    (∀ a ∈ ms, a.currentState ≠ .Running → a.stepProtocol t d = (a, [])) ∧
    ((∀ a ∈ ms, a.currentState ≠ .Running) → groupStepEvents ms t d = []) := by
  constructor
  · intro a _ ha
    unfold Animable.stepProtocol
    exact if_neg ha
  · induction ms with
    | nil => intro _; simp [groupStepEvents]
    | cons x xs ih =>
      intro h
      have hx : x.stepProtocol t d = (x, []) := by
        unfold Animable.stepProtocol
        exact if_neg (h x (by simp))
      have hrest := ih (fun a ha => h a (by simp [ha]))
      simp only [groupStepEvents, List.map_cons, List.flatten_cons, hx]
      simpa [groupStepEvents] using hrest

/-- C7 witness: a group of one stopped and one paused member emits no
events. -/
theorem group_step_skips_non_running_witness :
    (∀ a ∈ [sampleStopped, sampleStopped.setRepeated true],
      a.currentState ≠ AnimationState.Running) ∧
    groupStepEvents [sampleStopped, sampleStopped.setRepeated true] 1 1 = [] :=
  ⟨by decide,
   (group_step_skips_non_running
      [sampleStopped, sampleStopped.setRepeated true] 1 1).2 (by decide)⟩

/-- Helper: the traversal fold collects exactly the identities of the
Running members of the entry snapshot, in order, after the accumulator. -/
theorem steppedIds_foldl (ms : List GMember) (acc : List Nat) :
    ms.foldl (fun a m =>
        if m.anim.currentState = .Running then a ++ [m.idx] else a) acc
      = acc ++ (ms.filter (fun m => m.anim.currentState = .Running)).map
          (fun m => m.idx) := by
  induction ms generalizing acc with
  | nil => simp
  | cons x xs ih =>
    by_cases hx : x.anim.currentState = .Running <;>
      simp [List.filter_cons, hx, ih]

/-- C8: membership mutation from inside a member's own `animationStep`
does not corrupt the traversal — with distinct member identities, every
member Running at step entry has `animationStep` invoked exactly once in
that step call, and the invocation list is entirely independent of the
removal requests the callbacks make (they are buffered past the snapshot
traversal). -/
theorem snapshot_traversal_steps_running_once (ms : List GMember)
    (m : GMember) (f : GMember → List Nat)
    (h : (ms.map (fun x => x.idx)).Nodup)
    (hm : m ∈ ms) (hr : m.anim.currentState = .Running) :
    (groupSteppedIds ms).count m.idx = 1 ∧
    groupSteppedIds (ms.map (fun x => { x with removeRequests := f x }))
      = groupSteppedIds ms := by
  constructor
  · unfold groupSteppedIds
    rw [steppedIds_foldl, List.nil_append]
    have hsub : ((ms.filter (fun x => x.anim.currentState = .Running)).map
        (fun x => x.idx)).Sublist (ms.map (fun x => x.idx)) :=
      (List.filter_sublist ms).map _
    have hnd := h.sublist hsub
    have hmem : m.idx ∈ (ms.filter
        (fun x => x.anim.currentState = .Running)).map (fun x => x.idx) :=
      List.mem_map_of_mem _ (List.mem_filter.2 ⟨hm, by simp [hr]⟩)
    exact List.count_eq_one_of_mem hnd hmem
  · unfold groupSteppedIds
    rw [steppedIds_foldl, steppedIds_foldl, List.nil_append, List.nil_append]
    clear hm h hr
    induction ms with
    | nil => rfl
    | cons x xs ih =>
      by_cases hx : x.anim.currentState = .Running <;>
        simp [List.filter_cons, hx, ih]

/-- Concrete two-member group where the first member's callback requests
removal of the second. -/
def sampleMembers : List GMember :=
  [{ idx := 1, anim := sampleRunning, removeRequests := [2] },
   { idx := 2, anim := sampleRunning, removeRequests := [] }]

/-- C8 witness: in the concrete two-member group, member 2 is stepped
exactly once even though member 1's callback removes it. -/
theorem snapshot_traversal_steps_running_once_witness :
    (sampleMembers.map (fun x => x.idx)).Nodup ∧
    ({ idx := 2, anim := sampleRunning, removeRequests := [] } : GMember)
      ∈ sampleMembers ∧
    (groupSteppedIds sampleMembers).count 2 = 1 :=
  ⟨by decide, by decide,
   (snapshot_traversal_steps_running_once sampleMembers
      { idx := 2, anim := sampleRunning, removeRequests := [] }
      (fun _ => []) (by decide) (by decide) (by decide)).1⟩

/-- C9: for every group with duplicate-free membership, `add(a)` followed
by `remove(a)` leaves `a`'s back-reference cleared (its `animables()`
group pointer is null) and `a` absent from the membership; moreover `add`
of an existing member and `remove` of a non-member are exact no-ops. -/
theorem add_remove_roundtrip (w : GroupWorld) (a : Nat)
    (h : w.members.Nodup) :
    ((w.add a).remove a).backRef a = false ∧
    a ∉ ((w.add a).remove a).members ∧
    (a ∈ w.members → w.add a = w) ∧
    (a ∉ w.members → w.remove a = w) := by
  refine ⟨?_, ?_, fun ha => by simp [GroupWorld.add, ha],
    fun ha => by simp [GroupWorld.remove, ha]⟩
  · by_cases ha : a ∈ w.members
    · simp [GroupWorld.add, GroupWorld.remove, ha]
    · simp [GroupWorld.add, GroupWorld.remove, ha]
  · by_cases ha : a ∈ w.members
    · have : (w.add a).remove a
          = { members := w.members.erase a,
              backRef := fun x => if x = a then false else w.backRef x } := by
        simp [GroupWorld.add, GroupWorld.remove, ha]
      rw [this]
      intro hmem
      exact absurd ((h.mem_erase_iff).1 hmem).1 (by simp)
    · have : (w.add a).remove a
          = { members := (a :: w.members).erase a,
              backRef := fun x => if x = a then false
                else if x = a then true else w.backRef x } := by
        simp [GroupWorld.add, GroupWorld.remove, ha]
      rw [this]
      simpa [List.erase_cons_head] using ha

/-- Concrete group world with members 1 and 2. -/
def sampleWorld : GroupWorld :=
  { members := [1, 2], backRef := fun x => x == 1 || x == 2 }

/-- C9 witness: adding then removing animatable 3 leaves its back-reference
cleared and it absent from the membership. -/
theorem add_remove_roundtrip_witness :
    sampleWorld.members.Nodup ∧
    ((sampleWorld.add 3).remove 3).backRef 3 = false ∧
    3 ∉ ((sampleWorld.add 3).remove 3).members :=
  ⟨by decide,
   (add_remove_roundtrip sampleWorld 3 (by decide)).1,
   (add_remove_roundtrip sampleWorld 3 (by decide)).2.1⟩

end SceneGraph
end Magnum
